import Mathlib

/-!
# Verification of the escalade upward-directory-walk engine (`src/sync.js`)

This file shallowly embeds the synchronous traversal engine of the
repository (`src/sync.js`) and proves properties of the embedding.

Modelling conventions, all taken from the source:

* An absolute filesystem path is the list of its segments ordered from the
  deepest component to the root (`/a/b` is `["b", "a"]`, the root `/` is
  `[]`).  With this orientation `dirname` is `List.tail`, so the walk is
  structural recursion and every concrete run evaluates by `rfl`/`decide`.
* A JavaScript `Map` (string-keyed) is an association list that keeps
  insertion order, in which `set` of a present key updates in place,
  `delete` removes the entry, and `size` is the length (keys stay unique
  along every reachable state).
* `statSync`/`readdirSync` are oracle functions of an `FS` record returning
  `Option`; `none` models the call throwing.  A thrown error propagates
  (result `RunRes.err`); the module-level caches keep whatever was written
  before the throw, exactly as in the source.
* A `stats` object is represented by the only datum the source reads from
  it, the `isDirectory()` flag.
* The decision callback is a pure function from the current directory and
  its entry list to an optional return value (`none` models every falsy
  return).  Its `toString()` identity is an explicit `id : String` field.
* `resolve(dir, tmp)` with a truthy callback result is either an absolute
  path (returned unchanged) or a single relative segment (joined onto the
  current directory), the two shapes the library's callers use.
-/

set_option maxRecDepth 20000

/-- An absolute path, as its segments listed from the deepest one up to the
root; the root itself is `[]`. -/
abbrev FsPath := List String

/-- The `dirname` of an absolute path: drop the deepest segment; the root is its
own parent, as in POSIX `dirname("/") = "/"`. -/
def dirnameP (p : FsPath) : FsPath := p.tail

/-- The last segment of a path as a string; on the root it is `""`, matching
the JavaScript computation `"/".split('/').pop()`. -/
def lastSegment (p : FsPath) : String := p.head?.getD ""

/-- A callback's truthy return value: an absolute path or a relative name. -/
inductive Ret where
  | abs (p : FsPath)
  | rel (s : String)
deriving Repr, DecidableEq

/-- Embeds `resolve(dir, tmp)` for a truthy `tmp`: absolute values pass through,
relative names are joined onto `dir`. -/
def resolveP (dir : FsPath) : Ret → FsPath
  | .abs p => p
  | .rel s => s :: dir

/-- An insertion-ordered association list standing for a JavaScript `Map`. -/
abbrev JMap (κ : Type) (α : Type) := List (κ × α)

/-- JS `Map.get`: the value at a key, if present. -/
def jget [DecidableEq κ] : JMap κ α → κ → Option α
  | [], _ => none
  | e :: t, k => if e.1 = k then some e.2 else jget t k

/-- JS `Map.set`: update in place when the key is present (insertion order is
kept), append otherwise. -/
def jset [DecidableEq κ] : JMap κ α → κ → α → JMap κ α
  | [], k, v => [(k, v)]
  | e :: t, k, v => if e.1 = k then (k, v) :: t else e :: jset t k v

/-- JS `Map.delete`: remove the entry at a key. -/
def jdel [DecidableEq κ] : JMap κ α → κ → JMap κ α
  | [], _ => []
  | e :: t, k => if e.1 = k then jdel t k else e :: jdel t k

/-- Embeds `const MAX_CACHE_SIZE = 100;`. -/
def MAX_CACHE_SIZE : Nat := 100

/-- Embeds `const SKIP_DIRS = new Set(['.git', 'node_modules']);`. -/
def SKIP_DIRS : List String := [".git", "node_modules"]

/-- The module-level mutable state of `src/sync.js`: the result cache
`pathCache` (value `none` is the cached `undefined` of an unsuccessful
search), the `statCache`, the `readdirCache`, and the single `cacheKeys`
array that `addToCache` shares between the latter two. -/
structure CacheState where
  pathCache : JMap (FsPath × String) (Option FsPath)
  statCache : JMap FsPath Bool
  readdirCache : JMap FsPath (List String)
  cacheKeys : List FsPath
deriving Repr, DecidableEq

/-- The caches as they are at process start. -/
def emptyState : CacheState :=
  { pathCache := [], statCache := [], readdirCache := [], cacheKeys := [] }

/-- Embeds `function addToCache(cache, key, value)` of `src/sync.js`: when the cache
has reached `MAX_CACHE_SIZE`, shift the oldest key off the shared
`cacheKeys` queue and delete it from this cache (a shift of an empty queue
deletes nothing), then insert and record the new key. -/
def addToCache [DecidableEq κ] (cache : JMap κ α) (keys : List κ) (k : κ)
    (v : α) : JMap κ α × List κ :=
  let pruned :=
    if MAX_CACHE_SIZE ≤ cache.length then
      match keys with
      | [] => (cache, ([] : List κ))
      | k₀ :: rest => (jdel cache k₀, rest)
    else (cache, keys)
  (jset pruned.1 k v, pruned.2 ++ [k])

/-- Embeds `getCachedStat` of `src/sync.js`. -/
def getCachedStat (st : CacheState) (p : FsPath) : Option Bool :=
  jget st.statCache p

/-- Embeds `setCachedStat` of `src/sync.js` (it goes through `addToCache`, hence
through the shared `cacheKeys` queue). -/
def setCachedStat (st : CacheState) (p : FsPath) (b : Bool) : CacheState :=
  let r := addToCache st.statCache st.cacheKeys p b
  { st with statCache := r.1, cacheKeys := r.2 }

/-- Embeds `getCachedReaddir` of `src/sync.js`. -/
def getCachedReaddir (st : CacheState) (p : FsPath) : Option (List String) :=
  jget st.readdirCache p

/-- Embeds `setCachedReaddir` of `src/sync.js` (also through `addToCache` and the
shared `cacheKeys` queue). -/
def setCachedReaddir (st : CacheState) (p : FsPath) (files : List String) :
    CacheState :=
  let r := addToCache st.readdirCache st.cacheKeys p files
  { st with readdirCache := r.1, cacheKeys := r.2 }

/-- The filesystem oracle: `stat` yields the `isDirectory()` flag of a
path's stats, `readdir` the entry names; `none` models the call throwing
(path absent or inaccessible). -/
structure FS where
  stat : FsPath → Option Bool
  readdir : FsPath → Option (List String)

/-- A decision callback together with the string identity (`toString()`)
that the result-cache key is built from. -/
structure Cb where
  id : String
  fn : FsPath → List String → Option Ret

/-- How one call to the engine ends: a normal return (`some` a found path,
`none` the `undefined` of an unsuccessful search) or a propagated throw. -/
inductive RunRes where
  | ok (v : Option FsPath)
  | err
deriving Repr, DecidableEq

/-- The observable outcome of one call: its result, the module state after
it, how many `statSync`/`readdirSync` calls it made, the directories the
callback was invoked at (in order), and how many times the `while` body was
entered. -/
structure Outcome where
  res : RunRes
  st : CacheState
  statReads : Nat
  readdirReads : Nat
  cbCalls : List FsPath
  iters : Nat
deriving Repr, DecidableEq

/-- Lines 76–80 of `src/sync.js`: use the cached `readdirSync` result or
fetch (and cache) a new one; the `Nat` counts actual `readdirSync` calls. -/
def readdirStep (fs : FS) (st : CacheState) (dir : FsPath) :
    Option (List String) × CacheState × Nat :=
  match getCachedReaddir st dir with
  | some files => (some files, st, 0)
  | none =>
    match fs.readdir dir with
    | some files => (some files, setCachedReaddir st dir files, 1)
    | none => (none, st, 1)

/-- Lines 57–61 of `src/sync.js`: use the cached stats or fetch (and cache)
new ones; the `Nat` counts actual `statSync` calls. -/
def statStep (fs : FS) (st : CacheState) (dir : FsPath) :
    Option Bool × CacheState × Nat :=
  match getCachedStat st dir with
  | some b => (some b, st, 0)
  | none =>
    match fs.stat dir with
    | some b => (some b, setCachedStat st dir b, 1)
    | none => (none, st, 1)

/-- Falling out of the `while` loop to line 102 of `src/sync.js`:
`pathCache.set(cacheKey, undefined)` and an implicit `return undefined`. -/
def notFoundOutcome (key : FsPath × String) (st : CacheState)
    (sr rr : Nat) (calls : List FsPath) (its : Nat) : Outcome :=
  { res := .ok none,
    st := { st with pathCache := jset st.pathCache key none },
    statReads := sr, readdirReads := rr, cbCalls := calls, iters := its }

/-- The `while (true)` loop of `src/sync.js` (lines 70–99) followed by the
post-loop line 102.  Each body entry: the visited-set guard, the cached or
fresh directory listing (a throwing `readdirSync` propagates), the
skip-directory check on `dirname(dir).split('/').pop()`, the callback
invocation with result-cache write on a truthy return, and the
parent-of-self root check before stepping to the parent.  Adding `dir` to
`visited` at the body's top (source line 73) is realised by passing
`dir :: visited` to the recursive call, which no intervening code can
distinguish. -/
def loopSync (fs : FS) (cb : Cb) (key : FsPath × String) :
    FsPath → List FsPath → CacheState → Nat → Nat → List FsPath → Nat → Outcome
  | dir, visited, st, sr, rr, calls, its =>
    if dir ∈ visited then
      notFoundOutcome key st sr rr calls (its + 1)
    else
      match readdirStep fs st dir with
      | (none, st1, n) =>
        { res := .err, st := st1, statReads := sr, readdirReads := rr + n,
          cbCalls := calls, iters := its + 1 }
      | (some files, st1, n) =>
        if lastSegment (dirnameP dir) ∈ SKIP_DIRS then
          notFoundOutcome key st1 sr (rr + n) calls (its + 1)
        else
          match cb.fn dir files with
          | some r =>
            { res := .ok (some (resolveP dir r)),
              st := { st1 with
                pathCache := jset st1.pathCache key (some (resolveP dir r)) },
              statReads := sr, readdirReads := rr + n,
              cbCalls := calls ++ [dir], iters := its + 1 }
          | none =>
            match dir with
            | [] =>
              notFoundOutcome key st1 sr (rr + n) (calls ++ [([] : FsPath)])
                (its + 1)
            | seg :: rest =>
              loopSync fs cb key rest ((seg :: rest) :: visited) st1 sr
                (rr + n) (calls ++ [seg :: rest]) (its + 1)

/-- The default export of `src/sync.js`: resolve the start (the embedding's
inputs are already absolute), build the result-cache key from the resolved
start and the callback identity, short-circuit on a result-cache hit,
stat the start (cached), step to the parent when the start is not a
directory, then run the walk. -/
def escaladeSync (fs : FS) (st : CacheState) (start : FsPath) (cb : Cb) :
    Outcome :=
  let dir := start
  let key : FsPath × String := (dir, cb.id)
  match jget st.pathCache key with
  | some v =>
    { res := .ok v, st := st, statReads := 0, readdirReads := 0,
      cbCalls := [], iters := 0 }
  | none =>
    match statStep fs st dir with
    | (none, st1, n) =>
      { res := .err, st := st1, statReads := n, readdirReads := 0,
        cbCalls := [], iters := 0 }
    | (some isDir, st1, n) =>
      loopSync fs cb key (if isDir then dir else dirnameP dir) [] st1 n 0 [] 0

/-! ## Basic facts about the `JMap` operations -/

theorem jget_jset_self [DecidableEq κ] (m : JMap κ α) (k : κ) (v : α) :
    jget (jset m k v) k = some v := by
  induction m with
  | nil => simp [jget, jset]
  | cons e t ih =>
    by_cases h : e.1 = k
    · simp [jget, jset, h]
    · simp [jget, jset, h, ih]

theorem jget_jset_ne [DecidableEq κ] (m : JMap κ α) (k k' : κ) (v : α)
    (h : k' ≠ k) : jget (jset m k v) k' = jget m k' := by
  have hk : ¬ (k = k') := fun hk => h hk.symm
  induction m with
  | nil => simp [jget, jset, hk]
  | cons e t ih =>
    by_cases he : e.1 = k
    · subst he
      simp [jget, jset, hk]
    · by_cases he' : e.1 = k'
      · simp [jget, jset, he, he', h]
      · simp [jget, jset, he, he', h, ih]

theorem jset_of_jget_none [DecidableEq κ] (m : JMap κ α) (k : κ) (v : α)
    (h : jget m k = none) : jset m k v = m ++ [(k, v)] := by
  induction m with
  | nil => simp [jset]
  | cons e t ih =>
    by_cases he : e.1 = k
    · simp [jget, he] at h
    · simp [jget, he] at h
      simp [jset, he, ih h]

theorem length_jset_of_jget_none [DecidableEq κ] (m : JMap κ α) (k : κ)
    (v : α) (h : jget m k = none) :
    (jset m k v).length = m.length + 1 := by
  rw [jset_of_jget_none m k v h]
  simp

theorem jdel_of_jget_none [DecidableEq κ] (m : JMap κ α) (k : κ)
    (h : jget m k = none) : jdel m k = m := by
  induction m with
  | nil => simp [jdel]
  | cons e t ih =>
    by_cases he : e.1 = k
    · simp [jget, he] at h
    · simp [jget, he] at h
      simp [jdel, he, ih h]

/-! ## Structural lemmas about the walk -/

/-- Whenever the walk ends normally with value `v`, the result cache maps the
call's key to `v` in the final state (the walk writes `pathCache` exactly at
its two exits and nowhere else). -/
theorem loopSync_res_ok_cached (fs : FS) (cb : Cb) (key : FsPath × String)
    (dir : FsPath) :
    ∀ visited st sr rr calls its v,
      (loopSync fs cb key dir visited st sr rr calls its).res = .ok v →
      jget (loopSync fs cb key dir visited st sr rr calls its).st.pathCache
        key = some v := by
  induction dir with
  | nil =>
    intro visited st sr rr calls its v
    rw [loopSync]
    split
    · simp only [notFoundOutcome]
      rintro ⟨⟩
      exact jget_jset_self ..
    · split
      · simp
      · split
        · simp only [notFoundOutcome]
          rintro ⟨⟩
          exact jget_jset_self ..
        · split
          · rintro ⟨⟩
            exact jget_jset_self ..
          · simp only [notFoundOutcome]
            rintro ⟨⟩
            exact jget_jset_self ..
  | cons seg rest ih =>
    intro visited st sr rr calls its v
    rw [loopSync]
    split
    · simp only [notFoundOutcome]
      rintro ⟨⟩
      exact jget_jset_self ..
    · split
      · simp
      · split
        · simp only [notFoundOutcome]
          rintro ⟨⟩
          exact jget_jset_self ..
        · split
          · rintro ⟨⟩
            exact jget_jset_self ..
          · exact ih _ _ _ _ _ _ _

/-- The walk only appends to the record of callback invocations. -/
theorem loopSync_cbCalls_extends (fs : FS) (cb : Cb) (key : FsPath × String)
    (dir : FsPath) :
    ∀ visited st sr rr calls its, ∃ t,
      (loopSync fs cb key dir visited st sr rr calls its).cbCalls
        = calls ++ t := by
  induction dir with
  | nil =>
    intro visited st sr rr calls its
    rw [loopSync]
    split
    · exact ⟨[], by simp [notFoundOutcome]⟩
    · split
      · exact ⟨[], by simp [notFoundOutcome]⟩
      · split
        · exact ⟨[], by simp [notFoundOutcome]⟩
        · split
          · exact ⟨[([] : FsPath)], rfl⟩
          · exact ⟨[([] : FsPath)], rfl⟩
  | cons seg rest ih =>
    intro visited st sr rr calls its
    rw [loopSync]
    split
    · exact ⟨[], by simp [notFoundOutcome]⟩
    · split
      · exact ⟨[], by simp [notFoundOutcome]⟩
      · split
        · exact ⟨[], by simp [notFoundOutcome]⟩
        · split
          · exact ⟨[seg :: rest], rfl⟩
          · obtain ⟨t, ht⟩ := ih ((seg :: rest) :: visited) _ sr _
              (calls ++ [seg :: rest]) (its + 1)
            exact ⟨(seg :: rest) :: t, by rw [ht, List.append_assoc]; rfl⟩

/-- The `while` body is entered at most `depth + 1` more times when the walk
starts at a directory of depth `dir.length`. -/
theorem loopSync_iters_le (fs : FS) (cb : Cb) (key : FsPath × String)
    (dir : FsPath) :
    ∀ visited st sr rr calls its,
      (loopSync fs cb key dir visited st sr rr calls its).iters
        ≤ its + (dir.length + 1) := by
  induction dir with
  | nil =>
    intro visited st sr rr calls its
    rw [loopSync]
    split
    · simp [notFoundOutcome]
    · split
      · simp
      · split
        · simp [notFoundOutcome]
        · split
          · simp [notFoundOutcome]
          · simp [notFoundOutcome]
  | cons seg rest ih =>
    intro visited st sr rr calls its
    rw [loopSync]
    split
    · simp [notFoundOutcome]
    · split
      · simp
      · split
        · simp [notFoundOutcome]
        · split
          · simp
          · calc (loopSync fs cb key rest ((seg :: rest) :: visited) _ sr _
                  (_ ++ [seg :: rest]) (its + 1)).iters
                ≤ (its + 1) + (rest.length + 1) := ih ..
              _ ≤ its + ((seg :: rest).length + 1) := by simp; omega

/-- C4: every `locateBlocking` call terminates: the embedded engine is a
total function, and the `while` body runs at most (depth of the resolved
start path) + 1 times — each iteration's directory is the parent of the
previous one, the root (its own parent) ends the walk, and the visited set
guards revisits. -/
theorem claim_C4 (fs : FS) (st : CacheState) (start : FsPath) (cb : Cb) :
    (escaladeSync fs st start cb).iters ≤ start.length + 1 := by
  rw [escaladeSync]
  split
  · simp
  · split
    · simp
    · rename_i isDir st1 n _
      calc (loopSync fs cb (start, cb.id)
              (if isDir then start else dirnameP start) [] st1 n 0 [] 0).iters
          ≤ 0 + ((if isDir then start else dirnameP start).length + 1) :=
            loopSync_iters_le ..
        _ ≤ start.length + 1 := by
            cases isDir <;> simp [dirnameP, List.length_tail]

/-- C5: whenever the callback invocation at the current ancestor
directory returns a truthy value `r`, the engine returns `r` resolved
against that directory — an absolute value passes through unchanged
whatever the walk's position, a relative name is joined onto the
directory — the result is written to the result cache, and the walk stops
there: the callback is not invoked again. -/
theorem claim_C5 (fs : FS) (cb : Cb) (key : FsPath × String) (dir : FsPath)
    (visited : List FsPath) (st : CacheState) (sr rr : Nat)
    (calls : List FsPath) (its : Nat) (files : List String)
    (st1 : CacheState) (n : Nat) (r : Ret)
    (hv : dir ∉ visited)
    (hrd : readdirStep fs st dir = (some files, st1, n))
    (hskip : lastSegment (dirnameP dir) ∉ SKIP_DIRS)
    (hcb : cb.fn dir files = some r) :
    (loopSync fs cb key dir visited st sr rr calls its).res
      = .ok (some (resolveP dir r)) ∧
    (loopSync fs cb key dir visited st sr rr calls its).cbCalls
      = calls ++ [dir] ∧
    (∀ p, resolveP dir (Ret.abs p) = p) ∧
    (∀ s, resolveP dir (Ret.rel s) = s :: dir) := by
  rw [loopSync]
  cases dir with
  | nil => simp [hv, hrd, hskip, hcb, resolveP]
  | cons seg rest => simp [hv, hrd, hskip, hcb, resolveP]

/-- Witness for C5: a concrete run in which the callback answers with the
relative name `"f"` at directory `/d`, and the engine returns `/d/f`. -/
theorem claim_C5_witness :
    ((["d"] : FsPath) ∉ ([] : List FsPath) ∧
      readdirStep { stat := fun _ => some true, readdir := fun _ => some ["f"] }
        emptyState ["d"]
        = (some ["f"],
           setCachedReaddir emptyState ["d"] ["f"], 1) ∧
      lastSegment (dirnameP ["d"]) ∉ SKIP_DIRS ∧
      (Cb.mk "cb" (fun _ _ => some (.rel "f"))).fn ["d"] ["f"]
        = some (.rel "f")) ∧
    (loopSync { stat := fun _ => some true, readdir := fun _ => some ["f"] }
        (Cb.mk "cb" (fun _ _ => some (.rel "f"))) (["d"], "cb") ["d"] []
        emptyState 0 0 [] 0).res
      = .ok (some (resolveP ["d"] (.rel "f"))) := by
  refine ⟨⟨by decide, by decide, by decide, rfl⟩, ?_⟩
  exact (claim_C5 { stat := fun _ => some true, readdir := fun _ => some ["f"] }
    (Cb.mk "cb" (fun _ _ => some (.rel "f"))) (["d"], "cb") ["d"] [] emptyState
    0 0 [] 0 ["f"] (setCachedReaddir emptyState ["d"] ["f"]) 1 (.rel "f")
    (by decide) (by decide) (by decide) rfl).1

/-- C8: when the walk reaches the filesystem root (the directory that is
its own parent) and the callback still answers falsy, the call ends with the
explicit "not found" value — a normal return, not an error — and that
not-found outcome is recorded in the result cache under the call's key. -/
theorem claim_C8 (fs : FS) (cb : Cb) (key : FsPath × String)
    (visited : List FsPath) (st : CacheState) (sr rr : Nat)
    (calls : List FsPath) (its : Nat) (files : List String)
    (st1 : CacheState) (n : Nat)
    (hv : ([] : FsPath) ∉ visited)
    (hrd : readdirStep fs st [] = (some files, st1, n))
    (hcb : cb.fn [] files = none) :
    (loopSync fs cb key [] visited st sr rr calls its).res = .ok none ∧
    jget (loopSync fs cb key [] visited st sr rr calls its).st.pathCache key
      = some none := by
  rw [loopSync]
  simp [hv, hrd, hcb, notFoundOutcome, jget_jset_self, lastSegment, dirnameP,
    SKIP_DIRS]

/-- Witness for C8: at the root with an always-falsy callback the run
returns the not-found value and caches it. -/
theorem claim_C8_witness :
    ((([] : FsPath) ∉ ([] : List FsPath)) ∧
      readdirStep { stat := fun _ => some true, readdir := fun _ => some [] }
        emptyState []
        = (some [], setCachedReaddir emptyState [] [], 1) ∧
      (Cb.mk "cb" (fun _ _ => none)).fn [] [] = none) ∧
    ((loopSync { stat := fun _ => some true, readdir := fun _ => some [] }
        (Cb.mk "cb" (fun _ _ => none)) ([], "cb") [] [] emptyState 0 0 [] 0).res
        = .ok none ∧
      jget (loopSync { stat := fun _ => some true, readdir := fun _ => some [] }
        (Cb.mk "cb" (fun _ _ => none)) ([], "cb") [] [] emptyState 0 0
          [] 0).st.pathCache ([], "cb")
        = some none) := by
  refine ⟨⟨by decide, by decide, rfl⟩, ?_⟩
  exact claim_C8 { stat := fun _ => some true, readdir := fun _ => some [] }
    (Cb.mk "cb" (fun _ _ => none)) ([], "cb") [] emptyState 0 0 [] 0 []
    (setCachedReaddir emptyState [] []) 1 (by decide) (by decide) rfl

/-- A call that returns normally leaves its own answer in the result cache
under its key. -/
theorem escaladeSync_res_ok_cached (fs : FS) (st : CacheState)
    (start : FsPath) (cb : Cb) :
    ∀ v, (escaladeSync fs st start cb).res = .ok v →
      jget (escaladeSync fs st start cb).st.pathCache (start, cb.id)
        = some v := by
  intro v
  rw [escaladeSync]
  split
  · rename_i v' heq
    rintro ⟨⟩
    exact heq
  · split
    · simp
    · exact loopSync_res_ok_cached fs cb (start, cb.id) _ [] _ _ 0 [] 0 v

/-- C6: two sequential calls with the same start path and an identical
callback return the same result, and the second call performs no filesystem
reads at all: the result cache is consulted at the very start, before any
`statSync` or `readdirSync`, and the hit short-circuits the whole walk (no
loop iteration, no callback invocation, no state change). -/
theorem claim_C6 (fs : FS) (st : CacheState) (start : FsPath) (cb : Cb)
    (v : Option FsPath)
    (h : (escaladeSync fs st start cb).res = .ok v) :
    (escaladeSync fs (escaladeSync fs st start cb).st start cb).res
      = .ok v ∧
    (escaladeSync fs (escaladeSync fs st start cb).st start cb).statReads
      = 0 ∧
    (escaladeSync fs (escaladeSync fs st start cb).st start cb).readdirReads
      = 0 ∧
    (escaladeSync fs (escaladeSync fs st start cb).st start cb).cbCalls
      = [] ∧
    (escaladeSync fs (escaladeSync fs st start cb).st start cb).iters = 0 ∧
    (escaladeSync fs (escaladeSync fs st start cb).st start cb).st
      = (escaladeSync fs st start cb).st := by
  have hc := escaladeSync_res_ok_cached fs st start cb v h
  rw [escaladeSync]
  simp [hc]

/-- Witness for C6: a concrete first call succeeds, and its repetition is a
pure cache hit with the same answer and zero filesystem reads. -/
theorem claim_C6_witness :
    (escaladeSync { stat := fun _ => some true, readdir := fun _ => some ["f"] }
        emptyState ["d"] (Cb.mk "cb" (fun _ _ => some (.rel "f")))).res
      = .ok (some ["f", "d"]) ∧
    ((escaladeSync { stat := fun _ => some true, readdir := fun _ => some ["f"] }
        (escaladeSync { stat := fun _ => some true, readdir := fun _ => some ["f"] }
          emptyState ["d"] (Cb.mk "cb" (fun _ _ => some (.rel "f")))).st
        ["d"] (Cb.mk "cb" (fun _ _ => some (.rel "f")))).res
      = .ok (some ["f", "d"]) ∧
     (escaladeSync { stat := fun _ => some true, readdir := fun _ => some ["f"] }
        (escaladeSync { stat := fun _ => some true, readdir := fun _ => some ["f"] }
          emptyState ["d"] (Cb.mk "cb" (fun _ _ => some (.rel "f")))).st
        ["d"] (Cb.mk "cb" (fun _ _ => some (.rel "f")))).statReads = 0 ∧
     (escaladeSync { stat := fun _ => some true, readdir := fun _ => some ["f"] }
        (escaladeSync { stat := fun _ => some true, readdir := fun _ => some ["f"] }
          emptyState ["d"] (Cb.mk "cb" (fun _ _ => some (.rel "f")))).st
        ["d"] (Cb.mk "cb" (fun _ _ => some (.rel "f")))).readdirReads = 0) := by
  refine ⟨by decide, ?_⟩
  have hh := claim_C6 { stat := fun _ => some true, readdir := fun _ => some ["f"] }
    emptyState ["d"] (Cb.mk "cb" (fun _ _ => some (.rel "f")))
    (some ["f", "d"]) (by decide)
  exact ⟨hh.1, hh.2.1, hh.2.2.1⟩

/-- C9: two callbacks with the same textual form (`toString()` identity)
but different decision functions collide in the result cache: a call with
the second callback and the same start path returns the first call's cached
result, and the second callback is never invoked (no loop iteration, no
filesystem read). -/
theorem claim_C9 (fs : FS) (st : CacheState) (start : FsPath) (s : String)
    (f1 f2 : FsPath → List String → Option Ret) (v : Option FsPath)
    (h : (escaladeSync fs st start (Cb.mk s f1)).res = .ok v) :
    (escaladeSync fs (escaladeSync fs st start (Cb.mk s f1)).st start
        (Cb.mk s f2)).res = .ok v ∧
    (escaladeSync fs (escaladeSync fs st start (Cb.mk s f1)).st start
        (Cb.mk s f2)).cbCalls = [] ∧
    (escaladeSync fs (escaladeSync fs st start (Cb.mk s f1)).st start
        (Cb.mk s f2)).statReads = 0 ∧
    (escaladeSync fs (escaladeSync fs st start (Cb.mk s f1)).st start
        (Cb.mk s f2)).readdirReads = 0 := by
  have hc := escaladeSync_res_ok_cached fs st start (Cb.mk s f1) v h
  rw [escaladeSync]
  simp [hc]

/-- Witness for C9: with the same identity string, a first callback that
answers `"a"` poisons the cache for a second callback that would answer
`"b"`: the second call returns `/d/a` and never invokes its callback. -/
theorem claim_C9_witness :
    (escaladeSync { stat := fun _ => some true, readdir := fun _ => some ["f"] }
        emptyState ["d"] (Cb.mk "cb" (fun _ _ => some (.rel "a")))).res
      = .ok (some ["a", "d"]) ∧
    ((escaladeSync { stat := fun _ => some true, readdir := fun _ => some ["f"] }
        (escaladeSync { stat := fun _ => some true, readdir := fun _ => some ["f"] }
          emptyState ["d"] (Cb.mk "cb" (fun _ _ => some (.rel "a")))).st
        ["d"] (Cb.mk "cb" (fun _ _ => some (.rel "b")))).res
      = .ok (some ["a", "d"]) ∧
     (escaladeSync { stat := fun _ => some true, readdir := fun _ => some ["f"] }
        (escaladeSync { stat := fun _ => some true, readdir := fun _ => some ["f"] }
          emptyState ["d"] (Cb.mk "cb" (fun _ _ => some (.rel "a")))).st
        ["d"] (Cb.mk "cb" (fun _ _ => some (.rel "b")))).cbCalls = []) := by
  refine ⟨by decide, ?_⟩
  have hh := claim_C9 { stat := fun _ => some true, readdir := fun _ => some ["f"] }
    emptyState ["d"] "cb" (fun _ _ => some (.rel "a"))
    (fun _ _ => some (.rel "b")) (some ["a", "d"]) (by decide)
  exact ⟨hh.1, hh.2.1⟩

/-- Counterexample to C1 as stated: the skip check reads the name of the
*parent* of the current directory, not the current directory's own name.
At `/node_modules` (own name in the skip set, parent name `""`) the callback
*is* invoked and the walk succeeds; at `/x/node_modules/y` (own name `"y"`
not in the skip set) the walk is abandoned with "not found" before any
callback invocation. -/
theorem claim_C1_counterexample :
    ("node_modules" ∈ SKIP_DIRS ∧
      (escaladeSync
          { stat := fun _ => some true, readdir := fun _ => some ["f"] }
          emptyState ["node_modules"]
          (Cb.mk "c" (fun _ _ => some (.rel "f")))).cbCalls
        = [["node_modules"]] ∧
      (escaladeSync
          { stat := fun _ => some true, readdir := fun _ => some ["f"] }
          emptyState ["node_modules"]
          (Cb.mk "c" (fun _ _ => some (.rel "f")))).res
        = .ok (some ["f", "node_modules"])) ∧
    (lastSegment ["y", "node_modules", "x"] ∉ SKIP_DIRS ∧
      (escaladeSync
          { stat := fun _ => some true, readdir := fun _ => some ["f"] }
          emptyState ["y", "node_modules", "x"]
          (Cb.mk "c" (fun _ _ => some (.rel "f")))).cbCalls = [] ∧
      (escaladeSync
          { stat := fun _ => some true, readdir := fun _ => some ["f"] }
          emptyState ["y", "node_modules", "x"]
          (Cb.mk "c" (fun _ _ => some (.rel "f")))).res = .ok none) := by
  decide

/-- C1 (amended): the engine tests the *parent* directory's name (the
last segment of `dirname(dir)`, the empty string at the root): when that
name is in the skip set the walk is abandoned after the directory listing
but before the callback, reporting "not found" with no further callback
invocation; when it is not, the walk proceeds to the callback invocation at
the current directory. -/
theorem claim_C1 (fs : FS) (cb : Cb) (key : FsPath × String) (dir : FsPath)
    (visited : List FsPath) (st : CacheState) (sr rr : Nat)
    (calls : List FsPath) (its : Nat) (files : List String)
    (st1 : CacheState) (n : Nat)
    (hv : dir ∉ visited)
    (hrd : readdirStep fs st dir = (some files, st1, n)) :
    (lastSegment (dirnameP dir) ∈ SKIP_DIRS →
      (loopSync fs cb key dir visited st sr rr calls its).res = .ok none ∧
      (loopSync fs cb key dir visited st sr rr calls its).cbCalls = calls) ∧
    (lastSegment (dirnameP dir) ∉ SKIP_DIRS →
      ∃ t, (loopSync fs cb key dir visited st sr rr calls its).cbCalls
        = calls ++ dir :: t) := by
  constructor
  · intro hsk
    rw [loopSync]
    simp [hv, hrd, hsk, notFoundOutcome]
  · intro hsk
    rw [loopSync]
    cases dir with
    | nil =>
      rcases hcb : cb.fn [] files with _ | r
      · exact ⟨[], by simp [hv, hrd, hsk, hcb, notFoundOutcome]⟩
      · exact ⟨[], by simp [hv, hrd, hsk, hcb]⟩
    | cons seg rest =>
      rcases hcb : cb.fn (seg :: rest) files with _ | r
      · obtain ⟨t, ht⟩ := loopSync_cbCalls_extends fs cb key rest
          ((seg :: rest) :: visited) st1 sr (rr + n)
          (calls ++ [seg :: rest]) (its + 1)
        exact ⟨t, by simp [hv, hrd, hsk, hcb, ht]⟩
      · exact ⟨[], by simp [hv, hrd, hsk, hcb]⟩

/-- Witness for C1 (amended): at `/y/node_modules` the parent's name is
`"node_modules"`, so the walk is abandoned with "not found" and no callback
invocation, even though the callback would have answered. -/
theorem claim_C1_witness :
    ((["y", "node_modules"] : FsPath) ∉ ([] : List FsPath) ∧
      readdirStep { stat := fun _ => some true, readdir := fun _ => some ["f"] }
        emptyState ["y", "node_modules"]
        = (some ["f"],
           setCachedReaddir emptyState ["y", "node_modules"] ["f"], 1) ∧
      lastSegment (dirnameP ["y", "node_modules"]) ∈ SKIP_DIRS) ∧
    ((loopSync { stat := fun _ => some true, readdir := fun _ => some ["f"] }
        (Cb.mk "c" (fun _ _ => some (.rel "f"))) (["y", "node_modules"], "c")
        ["y", "node_modules"] [] emptyState 0 0 [] 0).res = .ok none ∧
      (loopSync { stat := fun _ => some true, readdir := fun _ => some ["f"] }
        (Cb.mk "c" (fun _ _ => some (.rel "f"))) (["y", "node_modules"], "c")
        ["y", "node_modules"] [] emptyState 0 0 [] 0).cbCalls = []) := by
  refine ⟨⟨by decide, by decide, by decide⟩, ?_⟩
  exact (claim_C1 { stat := fun _ => some true, readdir := fun _ => some ["f"] }
    (Cb.mk "c" (fun _ _ => some (.rel "f"))) (["y", "node_modules"], "c")
    ["y", "node_modules"] [] emptyState 0 0 [] 0 ["f"]
    (setCachedReaddir emptyState ["y", "node_modules"] ["f"]) 1
    (by decide) (by decide)).1 (by decide)

/-- Counterexample to C7 as stated: once a result for `(start, callback)` is
cached, a later call finds the cached outcome even though the start path no
longer exists on the filesystem (every `stat` now throws), so the call is
*not* a failure — it even reports the cached "not found". -/
theorem claim_C7_counterexample :
    (FS.stat { stat := fun _ => none, readdir := fun _ => none } ["a"]
        = none) ∧
    (escaladeSync { stat := fun _ => none, readdir := fun _ => none }
        (escaladeSync { stat := fun _ => some true, readdir := fun _ => some [] }
          emptyState ["a"] (Cb.mk "c" (fun _ _ => none))).st
        ["a"] (Cb.mk "c" (fun _ _ => none))).res = .ok none := by
  decide

/-- C7 (amended): provided neither the result cache holds an entry for
`(start, callback identity)` nor the metadata cache one for the resolved
start path, a start path that does not exist at call time makes the
metadata lookup fail and the whole call propagates that failure — it is
not converted to the "not found" outcome. -/
theorem claim_C7 (fs : FS) (st : CacheState) (start : FsPath) (cb : Cb)
    (h1 : jget st.pathCache (start, cb.id) = none)
    (h2 : getCachedStat st start = none)
    (h3 : fs.stat start = none) :
    (escaladeSync fs st start cb).res = .err := by
  rw [escaladeSync]
  simp [h1, statStep, h2, h3]

/-- Witness for C7 (amended): from an empty cache, a start path on which
`stat` throws makes the call fail. -/
theorem claim_C7_witness :
    (jget emptyState.pathCache ((["a"] : FsPath), "c") = none ∧
      getCachedStat emptyState ["a"] = none ∧
      FS.stat { stat := fun _ => none, readdir := fun _ => none } ["a"]
        = none) ∧
    (escaladeSync { stat := fun _ => none, readdir := fun _ => none }
        emptyState ["a"] (Cb.mk "c" (fun _ _ => none))).res = .err := by
  refine ⟨⟨by decide, by decide, by decide⟩, ?_⟩
  exact claim_C7 { stat := fun _ => none, readdir := fun _ => none }
    emptyState ["a"] (Cb.mk "c" (fun _ _ => none)) (by decide) (by decide)
    (by decide)

/-- A failed listing step means `readdirSync` itself threw. -/
theorem readdirStep_fst_none (fs : FS) (st : CacheState) (dir : FsPath)
    (h : (readdirStep fs st dir).1 = none) : fs.readdir dir = none := by
  rw [readdirStep] at h
  revert h
  split
  · simp
  · split
    · simp
    · rename_i hrd
      intro
      exact hrd

/-- The listing step never touches the result cache. -/
theorem readdirStep_pathCache (fs : FS) (st : CacheState) (dir : FsPath) :
    (readdirStep fs st dir).2.1.pathCache = st.pathCache := by
  rw [readdirStep]
  split
  · rfl
  · split
    · rfl
    · rfl

/-- A failed metadata step means `statSync` itself threw. -/
theorem statStep_fst_none (fs : FS) (st : CacheState) (dir : FsPath)
    (h : (statStep fs st dir).1 = none) : fs.stat dir = none := by
  rw [statStep] at h
  revert h
  split
  · simp
  · split
    · simp
    · rename_i hst
      intro
      exact hst

/-- The metadata step never touches the result cache. -/
theorem statStep_pathCache (fs : FS) (st : CacheState) (dir : FsPath) :
    (statStep fs st dir).2.1.pathCache = st.pathCache := by
  rw [statStep]
  split
  · rfl
  · split
    · rfl
    · rfl

/-- With a callback that always answers falsy and a listing oracle that
never throws, the walk always ends "not found" and its only write to the
result cache is the single `pathCache.set(cacheKey, undefined)`. -/
theorem loopSync_allNone (fs : FS) (cb : Cb) (key : FsPath × String)
    (hfs : ∀ p, fs.readdir p ≠ none)
    (hcb : ∀ d f, cb.fn d f = none) (dir : FsPath) :
    ∀ visited st sr rr calls its,
      (loopSync fs cb key dir visited st sr rr calls its).res = .ok none ∧
      (loopSync fs cb key dir visited st sr rr calls its).st.pathCache
        = jset st.pathCache key none := by
  induction dir with
  | nil =>
    intro visited st sr rr calls its
    rw [loopSync]
    split
    · exact ⟨rfl, rfl⟩
    · split
      · rename_i st1 n heq
        exact absurd (readdirStep_fst_none fs st [] (by rw [heq])) (hfs [])
      · rename_i files st1 n heq
        have h1 : st1.pathCache = st.pathCache := by
          have h2 := readdirStep_pathCache fs st []
          rw [heq] at h2
          exact h2
        split
        · exact ⟨rfl, congrArg (fun m => jset m key none) h1⟩
        · split
          · rename_i r hcbeq
            simp [hcb] at hcbeq
          · exact ⟨rfl, congrArg (fun m => jset m key none) h1⟩
  | cons seg rest ih =>
    intro visited st sr rr calls its
    rw [loopSync]
    split
    · exact ⟨rfl, rfl⟩
    · split
      · rename_i st1 n heq
        exact absurd (readdirStep_fst_none fs st (seg :: rest) (by rw [heq]))
          (hfs (seg :: rest))
      · rename_i files st1 n heq
        have h1 : st1.pathCache = st.pathCache := by
          have h2 := readdirStep_pathCache fs st (seg :: rest)
          rw [heq] at h2
          exact h2
        split
        · exact ⟨rfl, congrArg (fun m => jset m key none) h1⟩
        · split
          · rename_i r hcbeq
            simp [hcb] at hcbeq
          · refine ⟨(ih ..).1, ((ih ..).2).trans ?_⟩
            exact congrArg (fun m => jset m key none) h1

/-- With total oracles and an always-falsy callback, a call on a fresh key
appends exactly one (never-evicted) entry to the result cache. -/
theorem escaladeSync_allNone_pathCache (fs : FS) (cb : Cb)
    (hstat : ∀ p, fs.stat p ≠ none) (hfs : ∀ p, fs.readdir p ≠ none)
    (hcb : ∀ d f, cb.fn d f = none) (st : CacheState) (start : FsPath)
    (hfresh : jget st.pathCache (start, cb.id) = none) :
    (escaladeSync fs st start cb).st.pathCache
      = jset st.pathCache (start, cb.id) none := by
  simp only [escaladeSync, hfresh]
  split
  · rename_i st1 n heq
    exact absurd (statStep_fst_none fs st start (by rw [heq])) (hstat start)
  · rename_i isDir st1 n heq
    have h1 : st1.pathCache = st.pathCache := by
      have h2 := statStep_pathCache fs st start
      rw [heq] at h2
      exact h2
    refine ((loopSync_allNone fs cb (start, cb.id) hfs hcb _ [] st1 n 0 []
      0).2).trans ?_
    exact congrArg (fun m => jset m (start, cb.id) none) h1

/-- The filesystem used for the unbounded-result-cache run: everything is a
directory and every listing is empty. -/
def fsTotal : FS := { stat := fun _ => some true, readdir := fun _ => some [] }

/-- The always-falsy callback used for the unbounded-result-cache run. -/
def cbNone : Cb := Cb.mk "cb" (fun _ _ => none)

/-- A sequence of `locateBlocking` calls, one per start path, threading the
module state. -/
def runCalls : List FsPath → CacheState → CacheState
  | [], st => st
  | s :: rest, st => runCalls rest (escaladeSync fsTotal st s cbNone).st

/-- Sequential calls on pairwise-distinct fresh start paths grow the result
cache by one entry each: nothing is ever evicted from `pathCache`. -/
theorem runCalls_pathCache_length (ks : List FsPath) :
    ∀ st : CacheState, ks.Nodup →
      (∀ s ∈ ks, jget st.pathCache (s, cbNone.id) = none) →
      (runCalls ks st).pathCache.length
        = st.pathCache.length + ks.length := by
  induction ks with
  | nil =>
    intro st _ _
    simp [runCalls]
  | cons s rest ih =>
    intro st hnd hfresh
    rw [runCalls]
    have hpc := escaladeSync_allNone_pathCache fsTotal cbNone
      (by intro p; simp [fsTotal]) (by intro p; simp [fsTotal])
      (fun _ _ => rfl) st s (hfresh s (by simp))
    have hfresh' : ∀ s' ∈ rest,
        jget (escaladeSync fsTotal st s cbNone).st.pathCache (s', cbNone.id)
          = none := by
      intro s' hs'
      rw [hpc, jget_jset_ne]
      · exact hfresh s' (by simp [hs'])
      · intro hk
        have hss : s' = s := congrArg Prod.fst hk
        exact absurd (hss ▸ hs') (List.nodup_cons.mp hnd).1
    have hlen : (escaladeSync fsTotal st s cbNone).st.pathCache.length
        = st.pathCache.length + 1 := by
      rw [hpc]
      exact length_jset_of_jget_none _ _ _ (hfresh s (by simp))
    rw [ih (escaladeSync fsTotal st s cbNone).st (List.nodup_cons.mp hnd).2
      hfresh', hlen]
    simp
    omega

/-- The 101 pairwise-distinct start paths (`/`, `/a`, `/a/a`, …). -/
def starts101 : List FsPath := (List.range 101).map (fun i => List.replicate i "a")

/-- C2 (the code violates it): the result cache `pathCache` is written by a plain
`pathCache.set` that never consults `MAX_CACHE_SIZE` and never evicts, so
after 101 calls with distinct existing start paths the result cache holds
101 entries — more than the documented fixed capacity of 100. -/
theorem claim_C2 :
    MAX_CACHE_SIZE = 100 ∧
    (runCalls starts101 emptyState).pathCache.length = 101 ∧
    MAX_CACHE_SIZE < (runCalls starts101 emptyState).pathCache.length := by
  have hnd : starts101.Nodup :=
    (List.nodup_range 101).map (List.replicate_left_injective "a")
  have hlen : (runCalls starts101 emptyState).pathCache.length = 101 := by
    rw [runCalls_pathCache_length starts101 emptyState hnd
      (fun s _ => rfl)]
    simp [starts101, emptyState]
  exact ⟨rfl, hlen, by rw [hlen]; decide⟩

/-! ## The shared-queue eviction behaviour of `addToCache` -/

theorem jget_append_of_none [DecidableEq κ] (m m' : JMap κ α) (k : κ)
    (h : jget m k = none) : jget (m ++ m') k = jget m' k := by
  induction m with
  | nil => simp
  | cons e t ih =>
    by_cases he : e.1 = k
    · simp [jget, he] at h
    · simp [jget, he] at h
      simp [jget, he, ih h]

theorem jget_append_of_some [DecidableEq κ] (m m' : JMap κ α) (k : κ) (v : α)
    (h : jget m k = some v) : jget (m ++ m') k = some v := by
  induction m with
  | nil => simp [jget] at h
  | cons e t ih =>
    by_cases he : e.1 = k
    · simp [jget, he] at h ⊢
      exact h
    · simp [jget, he] at h ⊢
      exact ih h

theorem jget_map_of_mem [DecidableEq κ] (v : α) (ks : List κ) (k : κ)
    (h : k ∈ ks) : jget (ks.map (fun k' => (k', v))) k = some v := by
  induction ks with
  | nil => cases h
  | cons k' rest ih =>
    by_cases he : k' = k
    · simp [jget, he]
    · rcases List.mem_cons.mp h with rfl | hmem
      · exact absurd rfl he
      · simp [jget, he, ih hmem]

theorem jget_map_of_not_mem [DecidableEq κ] (v : α) (ks : List κ) (k : κ)
    (h : k ∉ ks) : jget (ks.map (fun k' => (k', v))) k = none := by
  induction ks with
  | nil => rfl
  | cons k' rest ih =>
    have h1 : ¬ (k' = k) := fun he => h (he ▸ List.mem_cons_self k' rest)
    have h2 : k ∉ rest := fun hm => h (List.mem_cons_of_mem k' hm)
    simp [jget, h1, ih h2]

/-- Repeated insertion of one value through `addToCache`, the shape both
`setCachedStat` and `setCachedReaddir` folds reduce to. -/
def insertAll [DecidableEq κ] (v : α) :
    List κ → JMap κ α × List κ → JMap κ α × List κ
  | [], p => p
  | k :: rest, p => insertAll v rest (addToCache p.1 p.2 k v)

theorem insertAll_append [DecidableEq κ] (v : α) (a : List κ) :
    ∀ (b : List κ) (p : JMap κ α × List κ),
      insertAll v (a ++ b) p = insertAll v b (insertAll v a p) := by
  induction a with
  | nil => intro b p; rfl
  | cons k rest ih =>
    intro b p
    rw [List.cons_append, insertAll, insertAll]
    exact ih b _

/-- Below capacity, `addToCache` evicts nothing: fresh distinct keys pile up
in insertion order, both in the cache and on the shared queue. -/
theorem insertAll_noevict [DecidableEq κ] (v : α) :
    ∀ (ks : List κ) (cache : JMap κ α) (q : List κ),
      (∀ k ∈ ks, jget cache k = none) → ks.Nodup →
      cache.length + ks.length ≤ MAX_CACHE_SIZE →
      insertAll v ks (cache, q)
        = (cache ++ ks.map (fun k => (k, v)), q ++ ks) := by
  intro ks
  induction ks with
  | nil =>
    intro cache q _ _ _
    simp [insertAll]
  | cons k rest ih =>
    intro cache q hfresh hnd hbound
    rw [insertAll]
    have hlt : ¬ (MAX_CACHE_SIZE ≤ cache.length) := by
      simp only [List.length_cons] at hbound
      omega
    have hstep : addToCache cache q k v = (cache ++ [(k, v)], q ++ [k]) := by
      simp only [addToCache, if_neg hlt]
      rw [jset_of_jget_none _ _ _ (hfresh k (List.mem_cons_self k rest))]
    rw [hstep]
    have hfresh' : ∀ k' ∈ rest, jget (cache ++ [(k, v)]) k' = none := by
      intro k' hk'
      rw [jget_append_of_none _ _ _ (hfresh k' (List.mem_cons_of_mem k hk'))]
      have hne : ¬ (k = k') :=
        fun he => (List.nodup_cons.mp hnd).1 (he ▸ hk')
      simp [jget, hne]
    have hres := ih (cache ++ [(k, v)]) (q ++ [k]) hfresh'
      (List.nodup_cons.mp hnd).2
      (by simp only [List.length_append, List.length_cons,
            List.length_nil] at hbound ⊢; omega)
    rw [hres]
    simp

/-- A single store used alone from an empty state: the 101st distinct key
evicts exactly the earliest-inserted key. -/
theorem insertAll_alone_evicts [DecidableEq κ] (v : α) (k0 klast : κ)
    (rest99 : List κ)
    (hnd : (k0 :: (rest99 ++ [klast])).Nodup) (hlen : rest99.length = 99) :
    insertAll v ((k0 :: rest99) ++ [klast]) (([] : JMap κ α), ([] : List κ))
      = ((rest99 ++ [klast]).map (fun k => (k, v)), rest99 ++ [klast]) := by
  have hnd' := List.nodup_cons.mp hnd
  have hk0 : k0 ∉ rest99 ++ [klast] := hnd'.1
  have hk0r : k0 ∉ rest99 := fun h => hk0 (List.mem_append_left _ h)
  have hkl : klast ∉ rest99 := by
    intro h
    have := (List.nodup_append.mp hnd'.2).2.2
    exact this h (by simp)
  have hnd100 : (k0 :: rest99).Nodup :=
    List.nodup_cons.mpr ⟨hk0r, (List.nodup_append.mp hnd'.2).1⟩
  have h100 : insertAll v (k0 :: rest99) (([] : JMap κ α), ([] : List κ))
      = ((k0 :: rest99).map (fun k => (k, v)), [] ++ (k0 :: rest99)) :=
    insertAll_noevict v (k0 :: rest99) [] [] (fun k _ => rfl) hnd100
      (by simp [hlen, MAX_CACHE_SIZE])
  rw [insertAll_append, h100]
  rw [insertAll, insertAll]
  have hclen : ((k0 :: rest99).map (fun k => (k, v))).length = MAX_CACHE_SIZE := by
    simp [hlen, MAX_CACHE_SIZE]
  have hstep : addToCache ((k0 :: rest99).map (fun k => (k, v)))
      ([] ++ (k0 :: rest99)) klast v
      = (rest99.map (fun k => (k, v)) ++ [(klast, v)], rest99 ++ [klast]) := by
    simp only [addToCache, List.nil_append, if_pos (le_of_eq hclen.symm)]
    rw [List.map_cons]
    rw [show jdel ((k0, v) :: rest99.map (fun k => (k, v))) k0
        = jdel (rest99.map (fun k => (k, v))) k0 from by simp [jdel]]
    rw [jdel_of_jget_none _ _ (jget_map_of_not_mem v rest99 k0 hk0r)]
    rw [jset_of_jget_none _ _ _ (jget_map_of_not_mem v rest99 klast hkl)]
  rw [hstep]
  simp

/-- The same 101 insertions into one store, but with one earlier insertion
into the *other* store sharing the queue: the eviction hits the other
store's key, nothing is removed from this store, and it ends holding 101
entries. -/
theorem insertAll_interfered [DecidableEq κ] (v : α) (r k0 klast : κ)
    (rest99 : List κ)
    (hnd : (k0 :: (rest99 ++ [klast])).Nodup) (hlen : rest99.length = 99)
    (hr : r ∉ k0 :: (rest99 ++ [klast])) :
    insertAll v ((k0 :: rest99) ++ [klast]) (([] : JMap κ α), [r])
      = (((k0 :: rest99) ++ [klast]).map (fun k => (k, v)),
         (k0 :: rest99) ++ [klast]) := by
  have hnd' := List.nodup_cons.mp hnd
  have hk0r : k0 ∉ rest99 :=
    fun h => hnd'.1 (List.mem_append_left _ h)
  have hkl100 : klast ∉ k0 :: rest99 := by
    intro h
    rcases List.mem_cons.mp h with rfl | h
    · exact hnd'.1 (by simp)
    · exact (List.nodup_append.mp hnd'.2).2.2 h (by simp)
  have hnd100 : (k0 :: rest99).Nodup :=
    List.nodup_cons.mpr ⟨hk0r, (List.nodup_append.mp hnd'.2).1⟩
  have h100 : insertAll v (k0 :: rest99) (([] : JMap κ α), [r])
      = ((k0 :: rest99).map (fun k => (k, v)), [r] ++ (k0 :: rest99)) :=
    insertAll_noevict v (k0 :: rest99) [] [r] (fun k _ => rfl) hnd100
      (by simp [hlen, MAX_CACHE_SIZE])
  rw [insertAll_append, h100]
  rw [insertAll, insertAll]
  have hclen : ((k0 :: rest99).map (fun k => (k, v))).length = MAX_CACHE_SIZE := by
    simp [hlen, MAX_CACHE_SIZE]
  have hrk : r ∉ k0 :: rest99 := by
    intro h
    rcases List.mem_cons.mp h with rfl | h
    · exact hr (by simp)
    · exact hr (by simp [h])
  have hstep : addToCache ((k0 :: rest99).map (fun k => (k, v)))
      ([r] ++ (k0 :: rest99)) klast v
      = ((k0 :: rest99).map (fun k => (k, v)) ++ [(klast, v)],
         (k0 :: rest99) ++ [klast]) := by
    simp only [addToCache, List.cons_append, List.nil_append,
      if_pos (le_of_eq hclen.symm)]
    rw [jdel_of_jget_none _ _ (jget_map_of_not_mem v (k0 :: rest99) r hrk)]
    rw [jset_of_jget_none _ _ _
      (jget_map_of_not_mem v (k0 :: rest99) klast hkl100)]
  rw [hstep]
  simp

/-- A sequence of `setCachedStat` insertions (value `true`), the
metadata-store half of the C3 experiment. -/
def statInsertAll : List FsPath → CacheState → CacheState
  | [], st => st
  | k :: rest, st => statInsertAll rest (setCachedStat st k true)

/-- A sequence of `setCachedReaddir` insertions (value `[]`), the
listing-store half of the C3 experiment. -/
def readdirInsertAll : List FsPath → CacheState → CacheState
  | [], st => st
  | k :: rest, st => readdirInsertAll rest (setCachedReaddir st k [])

theorem statInsertAll_bridge (ks : List FsPath) :
    ∀ st : CacheState,
      (statInsertAll ks st).statCache
          = (insertAll true ks (st.statCache, st.cacheKeys)).1
        ∧ (statInsertAll ks st).cacheKeys
          = (insertAll true ks (st.statCache, st.cacheKeys)).2 := by
  induction ks with
  | nil => intro st; exact ⟨rfl, rfl⟩
  | cons k rest ih =>
    intro st
    rw [statInsertAll, insertAll]
    exact ih (setCachedStat st k true)

theorem readdirInsertAll_bridge (ks : List FsPath) :
    ∀ st : CacheState,
      (readdirInsertAll ks st).readdirCache
          = (insertAll ([] : List String) ks
              (st.readdirCache, st.cacheKeys)).1
        ∧ (readdirInsertAll ks st).cacheKeys
          = (insertAll ([] : List String) ks
              (st.readdirCache, st.cacheKeys)).2 := by
  induction ks with
  | nil => intro st; exact ⟨rfl, rfl⟩
  | cons k rest ih =>
    intro st
    rw [readdirInsertAll, insertAll]
    exact ih (setCachedReaddir st k [])

/-- C3 (amended): a single store used **alone** from process start does
evict exactly the earliest-inserted key when the 101st distinct key
arrives; but because the metadata and listing stores share one insertion
queue (`cacheKeys`), their eviction order is *not* independent — this
theorem is the used-alone half for both stores. -/
theorem claim_C3 (k0 klast : FsPath) (rest99 : List FsPath)
    (hnd : (k0 :: (rest99 ++ [klast])).Nodup) (hlen : rest99.length = 99) :
    ((statInsertAll ((k0 :: rest99) ++ [klast]) emptyState).statCache.length
        = MAX_CACHE_SIZE ∧
      jget (statInsertAll ((k0 :: rest99) ++ [klast])
          emptyState).statCache k0 = none ∧
      ∀ k ∈ rest99 ++ [klast],
        jget (statInsertAll ((k0 :: rest99) ++ [klast])
            emptyState).statCache k = some true) ∧
    ((readdirInsertAll ((k0 :: rest99) ++ [klast])
          emptyState).readdirCache.length = MAX_CACHE_SIZE ∧
      jget (readdirInsertAll ((k0 :: rest99) ++ [klast])
          emptyState).readdirCache k0 = none ∧
      ∀ k ∈ rest99 ++ [klast],
        jget (readdirInsertAll ((k0 :: rest99) ++ [klast])
            emptyState).readdirCache k = some []) := by
  have hk0 : k0 ∉ rest99 ++ [klast] := (List.nodup_cons.mp hnd).1
  constructor
  · have hs := (statInsertAll_bridge ((k0 :: rest99) ++ [klast]) emptyState).1
    rw [show (insertAll true ((k0 :: rest99) ++ [klast])
          (emptyState.statCache, emptyState.cacheKeys))
        = insertAll true ((k0 :: rest99) ++ [klast]) ([], []) from rfl,
      insertAll_alone_evicts true k0 klast rest99 hnd hlen] at hs
    refine ⟨?_, ?_, ?_⟩
    · rw [hs]; simp [hlen, MAX_CACHE_SIZE]
    · rw [hs]; exact jget_map_of_not_mem true _ k0 hk0
    · intro k hk; rw [hs]; exact jget_map_of_mem true _ k hk
  · have hs := (readdirInsertAll_bridge ((k0 :: rest99) ++ [klast])
      emptyState).1
    rw [show (insertAll ([] : List String) ((k0 :: rest99) ++ [klast])
          (emptyState.readdirCache, emptyState.cacheKeys))
        = insertAll ([] : List String) ((k0 :: rest99) ++ [klast]) ([], [])
          from rfl,
      insertAll_alone_evicts ([] : List String) k0 klast rest99 hnd hlen]
      at hs
    refine ⟨?_, ?_, ?_⟩
    · rw [hs]; simp [hlen, MAX_CACHE_SIZE]
    · rw [hs]; exact jget_map_of_not_mem ([] : List String) _ k0 hk0
    · intro k hk; rw [hs]; exact jget_map_of_mem ([] : List String) _ k hk

/-- The concrete 101 distinct metadata keys `/s`, `/s/s`, …, all of them
replicates of the segment `"s"`. -/
def k0C : FsPath := List.replicate 1 "s"

/-- Keys 2 to 100 of the concrete C3 experiment. -/
def rest99C : List FsPath := (List.range' 2 99).map (fun n => List.replicate n "s")

/-- Key 101 of the concrete C3 experiment. -/
def klastC : FsPath := List.replicate 101 "s"

/-- Witness for C3 (amended) at the concrete keys. -/
theorem claim_C3_witness :
    ((k0C :: (rest99C ++ [klastC])).Nodup ∧ rest99C.length = 99) ∧
    ((statInsertAll ((k0C :: rest99C) ++ [klastC])
          emptyState).statCache.length = MAX_CACHE_SIZE ∧
      jget (statInsertAll ((k0C :: rest99C) ++ [klastC])
          emptyState).statCache k0C = none) := by
  have hmap : k0C :: (rest99C ++ [klastC])
      = (1 :: (List.range' 2 99 ++ [101])).map
          (fun n => List.replicate n "s") := by
    simp [k0C, rest99C, klastC]
  have hnd : (k0C :: (rest99C ++ [klastC])).Nodup := by
    rw [hmap]
    exact (by decide : (1 :: (List.range' 2 99 ++ [101])).Nodup).map
      (List.replicate_left_injective "s")
  have hlen : rest99C.length = 99 := by simp [rest99C]
  have h := claim_C3 k0C klastC rest99C hnd hlen
  exact ⟨⟨hnd, hlen⟩, h.1.1, h.1.2.1⟩

/-- Counterexample to C3 as stated: the very same 101 metadata-store
insertions evict the earliest metadata key when the store is used alone,
but after a single earlier *listing*-store insertion (key `/r`) the
eviction consumes the listing key instead — nothing leaves the metadata
store, the earliest key survives, and the store ends with 101 entries,
above its capacity.  Eviction is therefore not independent between the
stores. -/
theorem claim_C3_counterexample :
    ((statInsertAll ((k0C :: rest99C) ++ [klastC])
          (setCachedReaddir emptyState ["r"] [])).statCache.length
        = MAX_CACHE_SIZE + 1 ∧
      jget (statInsertAll ((k0C :: rest99C) ++ [klastC])
          (setCachedReaddir emptyState ["r"] [])).statCache k0C
        = some true) ∧
    ((statInsertAll ((k0C :: rest99C) ++ [klastC])
          emptyState).statCache.length = MAX_CACHE_SIZE ∧
      jget (statInsertAll ((k0C :: rest99C) ++ [klastC])
          emptyState).statCache k0C = none) := by
  have hmap : k0C :: (rest99C ++ [klastC])
      = (1 :: (List.range' 2 99 ++ [101])).map
          (fun n => List.replicate n "s") := by
    simp [k0C, rest99C, klastC]
  have hnd : (k0C :: (rest99C ++ [klastC])).Nodup := by
    rw [hmap]
    exact (by decide : (1 :: (List.range' 2 99 ++ [101])).Nodup).map
      (List.replicate_left_injective "s")
  have hlen : rest99C.length = 99 := by simp [rest99C]
  have hk0 : k0C ∉ rest99C ++ [klastC] := (List.nodup_cons.mp hnd).1
  constructor
  · have hr : (["r"] : FsPath) ∉ k0C :: (rest99C ++ [klastC]) := by decide
    have hs := (statInsertAll_bridge ((k0C :: rest99C) ++ [klastC])
      (setCachedReaddir emptyState ["r"] [])).1
    rw [show (insertAll true ((k0C :: rest99C) ++ [klastC])
          ((setCachedReaddir emptyState ["r"] []).statCache,
           (setCachedReaddir emptyState ["r"] []).cacheKeys))
        = insertAll true ((k0C :: rest99C) ++ [klastC]) ([], [["r"]])
          from rfl,
      insertAll_interfered true ["r"] k0C klastC rest99C hnd hlen hr] at hs
    constructor
    · rw [hs]; simp [hlen, MAX_CACHE_SIZE]
    · rw [hs]; exact jget_map_of_mem true _ k0C (by simp)
  · have hs := (statInsertAll_bridge ((k0C :: rest99C) ++ [klastC])
      emptyState).1
    rw [show (insertAll true ((k0C :: rest99C) ++ [klastC])
          (emptyState.statCache, emptyState.cacheKeys))
        = insertAll true ((k0C :: rest99C) ++ [klastC]) ([], []) from rfl,
      insertAll_alone_evicts true k0C klastC rest99C hnd hlen] at hs
    constructor
    · rw [hs]; simp [hlen, MAX_CACHE_SIZE]
    · rw [hs]; exact jget_map_of_not_mem true _ k0C hk0

/-! ## Object identity of cached listings (heap refinement)

The source passes the very array object obtained from `readdirSync` (or
from `readdirCache`) to the callback and stores that same object in the
cache.  To make object identity expressible, this refinement gives listing
arrays an explicit store: a `RefId` is an array object, the heap holds the
array contents, `readdirCache` holds references, and the callback receives
a reference and may rewrite the heap (an in-place mutation).  The walk
structure (visited guard, listing step, skip check, callback exit, parent
step) is exactly that of `loopSync`; the result and metadata caches are
orthogonal to listing-object identity and are left out of this state. -/

/-- A reference to one JavaScript array object (its index in the store). -/
abbrev RefId := Nat

/-- The array store: position `r` is the current content of object `r`. -/
abbrev Heap := List (List String)

/-- The listing cache of the refinement: path to array *reference*, plus
the shared insertion-order queue. -/
structure CacheStateH where
  readdirCacheH : JMap FsPath RefId
  cacheKeysH : List FsPath
deriving Repr, DecidableEq

/-- The refinement's empty module state. -/
def emptyStateH : CacheStateH := { readdirCacheH := [], cacheKeysH := [] }

/-- Embeds `setCachedReaddir` storing the array reference itself, as JS does. -/
def setCachedReaddirH (st : CacheStateH) (p : FsPath) (r : RefId) :
    CacheStateH :=
  let q := addToCache st.readdirCacheH st.cacheKeysH p r
  { readdirCacheH := q.1, cacheKeysH := q.2 }

/-- The listing step of the refinement: a cache hit returns the stored
reference; a miss allocates a fresh array object holding `readdirSync`'s
result, caches the reference, and returns it.  No copy is ever made. -/
def readdirStepH (fs : FS) (st : CacheStateH) (heap : Heap) (dir : FsPath) :
    Option RefId × CacheStateH × Heap :=
  match jget st.readdirCacheH dir with
  | some r => (some r, st, heap)
  | none =>
    match fs.readdir dir with
    | some files =>
      (some heap.length, setCachedReaddirH st dir heap.length,
       heap ++ [files])
    | none => (none, st, heap)

/-- A callback of the refinement: it receives the current directory and the
listing array's reference, reads the heap, and may return a rewritten heap
(mutating any array in place) along with its decision. -/
structure CbH where
  id : String
  fn : FsPath → RefId → Heap → Heap × Option Ret

/-- One recorded callback invocation: the directory, the reference the
callback received, the listing cache's entry for that directory at
invocation time, and the array content the callback saw. -/
structure TraceE where
  dir : FsPath
  ref : RefId
  cachedRef : Option RefId
  seen : List String
deriving Repr, DecidableEq

/-- Outcome of a run of the refinement. -/
structure OutcomeH where
  resH : RunRes
  stH : CacheStateH
  heapH : Heap
  trace : List TraceE
deriving Repr, DecidableEq

/-- The walk of the refinement, structured exactly like `loopSync`. -/
def loopSyncH (fs : FS) (cb : CbH) :
    FsPath → List FsPath → CacheStateH → Heap → List TraceE → OutcomeH
  | dir, visited, st, heap, tr =>
    if dir ∈ visited then
      { resH := .ok none, stH := st, heapH := heap, trace := tr }
    else
      match readdirStepH fs st heap dir with
      | (none, st1, heap1) =>
        { resH := .err, stH := st1, heapH := heap1, trace := tr }
      | (some r, st1, heap1) =>
        if lastSegment (dirnameP dir) ∈ SKIP_DIRS then
          { resH := .ok none, stH := st1, heapH := heap1, trace := tr }
        else
          match cb.fn dir r heap1 with
          | (heap2, some ret) =>
            { resH := .ok (some (resolveP dir ret)), stH := st1,
              heapH := heap2,
              trace := tr ++ [TraceE.mk dir r (jget st1.readdirCacheH dir)
                (heap1.getD r [])] }
          | (heap2, none) =>
            match dir with
            | [] =>
              { resH := .ok none, stH := st1, heapH := heap2,
                trace := tr ++ [TraceE.mk [] r (jget st1.readdirCacheH [])
                  (heap1.getD r [])] }
            | seg :: rest =>
              loopSyncH fs cb rest ((seg :: rest) :: visited) st1 heap2
                (tr ++ [TraceE.mk (seg :: rest) r
                  (jget st1.readdirCacheH (seg :: rest))
                  (heap1.getD r [])])

/-- The refinement's engine entry: directory-vs-file adjustment then walk
(the result cache, orthogonal here, is omitted). -/
def escaladeSyncH (fs : FS) (st : CacheStateH) (heap : Heap)
    (start : FsPath) (isDir : Bool) (cb : CbH) : OutcomeH :=
  loopSyncH fs cb (if isDir then start else dirnameP start) [] st heap []

/-- `addToCache` always leaves the just-inserted key readable. -/
theorem jget_addToCache_self [DecidableEq κ] (cache : JMap κ α)
    (q : List κ) (k : κ) (v : α) :
    jget (addToCache cache q k v).1 k = some v :=
  jget_jset_self ..

/-- After a successful listing step, the cache maps the directory to
exactly the reference that was returned (and that the callback receives). -/
theorem readdirStepH_cached (fs : FS) (st : CacheStateH) (heap : Heap)
    (dir : FsPath) (r : RefId) (st1 : CacheStateH) (heap1 : Heap)
    (h : readdirStepH fs st heap dir = (some r, st1, heap1)) :
    jget st1.readdirCacheH dir = some r := by
  rw [readdirStepH] at h
  revert h
  split
  · rename_i r' heq
    intro h
    cases h
    exact heq
  · split
    · intro h
      cases h
      exact jget_addToCache_self ..
    · intro h
      cases h

/-- Every recorded invocation received exactly the reference the listing
cache held for its directory at that moment. -/
theorem loopSyncH_trace_cached (fs : FS) (cb : CbH) (dir : FsPath) :
    ∀ visited st heap tr,
      (∀ e ∈ tr, e.cachedRef = some e.ref) →
      ∀ e ∈ (loopSyncH fs cb dir visited st heap tr).trace,
        e.cachedRef = some e.ref := by
  induction dir with
  | nil =>
    intro visited st heap tr htr
    rw [loopSyncH]
    split
    · exact htr
    · split
      · exact htr
      · rename_i r st1 heap1 heq
        split
        · exact htr
        · split
          · rename_i heap2 ret heq2
            intro e he
            rcases List.mem_append.mp he with h | h
            · exact htr e h
            · rcases List.mem_singleton.mp h with rfl
              exact readdirStepH_cached fs st heap [] r st1 heap1 heq
          · rename_i heap2 heq2
            intro e he
            rcases List.mem_append.mp he with h | h
            · exact htr e h
            · rcases List.mem_singleton.mp h with rfl
              exact readdirStepH_cached fs st heap [] r st1 heap1 heq
  | cons seg rest ih =>
    intro visited st heap tr htr
    rw [loopSyncH]
    split
    · exact htr
    · split
      · exact htr
      · rename_i r st1 heap1 heq
        split
        · exact htr
        · split
          · rename_i heap2 ret heq2
            intro e he
            rcases List.mem_append.mp he with h | h
            · exact htr e h
            · rcases List.mem_singleton.mp h with rfl
              exact readdirStepH_cached fs st heap (seg :: rest) r st1
                heap1 heq
          · rename_i heap2 heq2
            refine ih ((seg :: rest) :: visited) st1 heap2 _ ?_
            intro e he
            rcases List.mem_append.mp he with h | h
            · exact htr e h
            · rcases List.mem_singleton.mp h with rfl
              exact readdirStepH_cached fs st heap (seg :: rest) r st1
                heap1 heq

/-- The filesystem of the mutation experiment: every listing is `["orig"]`. -/
def fsC10 : FS :=
  { stat := fun _ => some true, readdir := fun _ => some ["orig"] }

/-- A callback that mutates the listing array it is handed in place,
overwriting it with `["mutated"]`, and keeps walking. -/
def cbMut : CbH :=
  { id := "m", fn := fun _ r heap => (heap.set r ["mutated"], none) }

/-- A callback that only reads its listing argument. -/
def cbRead : CbH :=
  { id := "n", fn := fun _ _ heap => (heap, none) }

/-- C10: the entry-name array handed to the callback at a directory is
the very object stored in the listing cache for that directory (first
conjunct: at every recorded invocation, the cache's entry is exactly the
reference the callback received); consequently an in-place mutation by a
callback is observed by every later lookup of that directory's listing —
in the second conjunct a later call sees `["mutated"]` for both
directories although the filesystem still answers `["orig"]`. -/
theorem claim_C10 :
    (∀ (fs : FS) (cb : CbH) (st : CacheStateH) (heap : Heap)
        (start : FsPath) (isDir : Bool),
      ∀ e ∈ (escaladeSyncH fs st heap start isDir cb).trace,
        e.cachedRef = some e.ref) ∧
    ((escaladeSyncH fsC10
        (escaladeSyncH fsC10 emptyStateH [] ["d"] true cbMut).stH
        (escaladeSyncH fsC10 emptyStateH [] ["d"] true cbMut).heapH
        ["d"] true cbRead).trace.map TraceE.seen
      = [["mutated"], ["mutated"]] ∧
      FS.readdir fsC10 ["d"] = some ["orig"]) := by
  constructor
  · intro fs cb st heap start isDir
    exact loopSyncH_trace_cached fs cb _ [] st heap [] (by simp)
  · exact ⟨by decide, rfl⟩

/-- Witness for C10: in the concrete mutation run, the first recorded
invocation of the reading callback received reference `0`, exactly the
listing cache's entry for `/d`. -/
theorem claim_C10_witness :
    (TraceE.mk ["d"] 0 (some 0) ["mutated"]
        ∈ (escaladeSyncH fsC10
            (escaladeSyncH fsC10 emptyStateH [] ["d"] true cbMut).stH
            (escaladeSyncH fsC10 emptyStateH [] ["d"] true cbMut).heapH
            ["d"] true cbRead).trace) ∧
    (TraceE.mk ["d"] 0 (some 0) ["mutated"]).cachedRef
      = some (TraceE.mk ["d"] 0 (some 0) ["mutated"]).ref := by
  refine ⟨by decide, ?_⟩
  exact claim_C10.1 fsC10 cbRead
    (escaladeSyncH fsC10 emptyStateH [] ["d"] true cbMut).stH
    (escaladeSyncH fsC10 emptyStateH [] ["d"] true cbMut).heapH
    ["d"] true (TraceE.mk ["d"] 0 (some 0) ["mutated"]) (by decide)
